import Mathlib

/-!
Shallow embedding of `src/python_service/app.py` (Jarvis market data service).

Modelling conventions:
* Python floats are modelled as exact rationals; pandas `NaN` and JSON `null`
  are both `none` (numeric cells are `Option ℚ`).
* Python string primitives (strip, upper, split, membership, ordering) are
  modelled by structurally recursive functions over the character list of the
  string, with the same semantics on the ASCII data the service handles.
* A per-ticker DataFrame with the fixed adapter schema is a `List Row`; column
  presence is tracked separately as a list of column names where the code
  manipulates `df.columns`.
* Fallible Python code (raising `ValueError` / `HTTPException`) is modelled
  with `Option` / `Except`.
-/

namespace Jarvis

/-! ### Python string primitives over character lists -/

/-- Python `str.strip()`: drop whitespace from both ends. -/
def trimChars (l : List Char) : List Char :=
  ((l.dropWhile Char.isWhitespace).reverse.dropWhile Char.isWhitespace).reverse

/-- Python `s.split(sep)` for a one-character separator (used to model the
    field structure that `strptime` recognises in its format string). -/
def splitOnChar (sep : Char) : List Char → List (List Char)
  | [] => [[]]
  | c :: cs =>
    let r := splitOnChar sep cs
    if c = sep then [] :: r
    else
      match r with
      | [] => [[c]]
      | g :: gs => (c :: g) :: gs

/-- Numeric value of a nonempty all-digit character list, `none` otherwise. -/
def digitsToNat? (l : List Char) : Option Nat :=
  if !l.isEmpty && l.all (·.isDigit) then
    some (l.foldl (fun n c => n * 10 + (c.toNat - 48)) 0)
  else none

/-- Strict lexicographic order on character lists, matching how both Python
    and pandas compare the ASCII strings handled here (code-point order). -/
def lexLT : List Char → List Char → Bool
  | [], [] => false
  | [], _ :: _ => true
  | _ :: _, [] => false
  | a :: as, b :: bs => if a < b then true else if b < a then false else lexLT as bs

/-- Reflexive lexicographic order on character lists. -/
def lexLE : List Char → List Char → Bool
  | [], _ => true
  | _ :: _, [] => false
  | a :: as, b :: bs => if a < b then true else if b < a then false else lexLE as bs

/-- Python `str.strip()` on a string. -/
def pyStrip (s : String) : String := String.mk (trimChars s.data)

/-- Python `str.upper()`; agrees with `Char.toUpper` on ASCII data. -/
def pyUpper (s : String) : String := String.mk (s.data.map Char.toUpper)

/-! ### Date parsing helpers (app.py lines 75-97) -/

/-- Gregorian number of days in a month, as validated by CPython `datetime`. -/
def daysInMonth (y m : Nat) : Nat :=
  if m = 2 then
    if y % 4 = 0 ∧ (y % 100 ≠ 0 ∨ y % 400 = 0) then 29 else 28
  else if m = 4 ∨ m = 6 ∨ m = 9 ∨ m = 11 then 30
  else 31

/-- Model of a CPython `strptime` one-or-two-digit numeric field (`%m`, `%d`)
    combined with the bound that the format regex enforces on it. -/
def field2 (hi : Nat) (s : List Char) : Option Nat :=
  if 1 ≤ s.length ∧ s.length ≤ 2 then
    match digitsToNat? s with
    | some v => if 1 ≤ v ∧ v ≤ hi then some v else none
    | none => none
  else none

/-- Model of the CPython `strptime` `%Y` field: exactly four digits, and
    `datetime` requires the year to be at least 1. -/
def field4year (s : List Char) : Option Nat :=
  if s.length = 4 then
    match digitsToNat? s with
    | some v => if 1 ≤ v then some v else none
    | none => none
  else none

/-- Model of `datetime.strptime(s, "%m/%d/%Y")` followed by `datetime`
    validation: returns (year, month, day) on success, `none` standing for the
    Python `ValueError`. -/
def strptime_mdY (s : String) : Option (Nat × Nat × Nat) :=
  match splitOnChar '/' s.data with
  | [ms, ds, ys] =>
    match field2 12 ms, field2 31 ds, field4year ys with
    | some m, some d, some y => if d ≤ daysInMonth y m then some (y, m, d) else none
    | _, _, _ => none
  | _ => none

/-- Model of `datetime.strptime(s, "%Y-%m-%d")` followed by `datetime`
    validation. -/
def strptime_Ymd (s : String) : Option (Nat × Nat × Nat) :=
  match splitOnChar '-' s.data with
  | [ys, ms, ds] =>
    match field4year ys, field2 12 ms, field2 31 ds with
    | some y, some m, some d => if d ≤ daysInMonth y m then some (y, m, d) else none
    | _, _, _ => none
  | _ => none

/-- Two ASCII digits, their value, and the remaining characters. -/
def parse2digits : List Char → Option (Nat × List Char)
  | a :: b :: rest =>
    if a.isDigit ∧ b.isDigit then
      some ((a.toNat - 48) * 10 + (b.toNat - 48), rest)
    else none
  | _ => none

/-- CPython `_parse_hh_mm_ss_ff`: `HH[:MM[:SS[.fff or .ffffff]]]` with
    two-digit components; the fractional digits are validated but their value
    is not kept (no theorem depends on sub-second values). -/
def parse_hms (l : List Char) : Option (Nat × Nat × Nat) := do
  let (h, r₁) ← parse2digits l
  match r₁ with
  | [] => some (h, 0, 0)
  | ':' :: r₂ => do
    let (m, r₃) ← parse2digits r₂
    match r₃ with
    | [] => some (h, m, 0)
    | ':' :: r₄ => do
      let (s, r₅) ← parse2digits r₄
      match r₅ with
      | [] => some (h, m, s)
      | '.' :: r₆ =>
        if (r₆.length = 3 ∨ r₆.length = 6) ∧ r₆.all (·.isDigit) then some (h, m, s)
        else none
      | _ => none
    | _ => none
  | _ => none

/-- The timezone split of CPython `_parse_isoformat_time`: the suffix after
    the first '-', or, when there is no '-', after the first '+'. -/
def splitTz (l : List Char) : List Char × Option (List Char) :=
  match l.findIdx? (· = '-') with
  | some i => (l.take i, some (l.drop (i + 1)))
  | none =>
    match l.findIdx? (· = '+') with
    | some i => (l.take i, some (l.drop (i + 1)))
    | none => (l, none)

/-- CPython `_parse_isoformat_time` combined with the range checks performed
    by the `datetime` and `timezone` constructors: a valid time-of-day with
    optional fractional seconds and an optional UTC offset
    (`±HH:MM[:SS[.ffffff]]` whose magnitude stays below 24 hours). -/
def parse_isotime (l : List Char) : Bool :=
  if l.length < 2 then false
  else
    match splitTz l with
    | (timestr, tz) =>
      match parse_hms timestr with
      | none => false
      | some (h, m, s) =>
        if h ≤ 23 ∧ m ≤ 59 ∧ s ≤ 59 then
          match tz with
          | none => true
          | some tzstr =>
            if tzstr.length = 5 ∨ tzstr.length = 8 ∨ tzstr.length = 15 then
              match parse_hms tzstr with
              | some (th, tm, ts) => decide (th * 3600 + tm * 60 + ts < 86400)
              | none => false
            else false
        else false

/-- Strict zero-padded `YYYY-MM-DD` on exactly ten characters (CPython
    `_parse_isoformat_date` plus the `datetime` constructor's bounds;
    `int()`'s tolerance of a '+'-signed field is not modelled). -/
def parse_isodate10 (l : List Char) : Option (Nat × Nat × Nat) :=
  match splitOnChar '-' l with
  | [ys, ms, ds] =>
    if ys.length = 4 ∧ ms.length = 2 ∧ ds.length = 2 then
      match digitsToNat? ys, digitsToNat? ms, digitsToNat? ds with
      | some y, some m, some d =>
        if 1 ≤ y ∧ 1 ≤ m ∧ m ≤ 12 ∧ 1 ≤ d ∧ d ≤ daysInMonth y m then some (y, m, d)
        else none
      | _, _, _ => none
    else none
  | _ => none

/-- Model of `datetime.fromisoformat`: the first ten characters must form a
    zero-padded calendar date, and an input longer than ten characters must
    carry one arbitrary separator character followed by a valid time-of-day
    (time-suffixed strings such as `"2011-11-04 00:05:23"` are accepted).
    This is the CPython 3.7-3.10 grammar; 3.11+ accepts strictly more shapes
    (compact dates, 'Z', ...), and 3.10 and earlier additionally tolerate a
    lone eleventh character, so the theorems below rely on this model only in
    the success direction, where all supported versions agree. -/
def fromisoformat_date (s : String) : Option (Nat × Nat × Nat) :=
  match parse_isodate10 (s.data.take 10) with
  | none => none
  | some ymd =>
    match s.data.drop 10 with
    | [] => some ymd
    | _ :: rest => if parse_isotime rest then some ymd else none

/-- Zero-pad the decimal representation of `n` to width `w`. -/
def pad (w n : Nat) : String :=
  let s := toString n
  String.mk (List.replicate (w - s.length) '0') ++ s

/-- Model of app.py `_to_mmddyyyy` (lines 75-84): strip, then return any string
    containing a slash unchanged, otherwise parse with `fromisoformat` and
    reformat as `MM/DD/YYYY`; a Python `ValueError` is `none`. -/
def to_mmddyyyy (s : String) : Option String :=
  let s := pyStrip s
  if s.data.contains '/' then some s
  else
    (fromisoformat_date s).map fun ymd =>
      pad 2 ymd.2.1 ++ "/" ++ pad 2 ymd.2.2 ++ "/" ++ pad 4 ymd.1

/-- Days from 1970-01-01 to the given Gregorian date (Howard Hinnant's
    days-from-civil algorithm). The year is at least 1 wherever this is
    applied, so every integer-division convention agrees. -/
def daysFromCivil (y m d : Nat) : Int :=
  let yAdj : Int := if m ≤ 2 then (y : Int) - 1 else (y : Int)
  let era : Int := yAdj / 400
  let yoe : Int := yAdj - era * 400
  let mp : Int := ((m : Int) + 9) % 12
  let doy : Int := (153 * mp + 2) / 5 + (d : Int) - 1
  let doe : Int := yoe * 365 + yoe / 4 - yoe / 100 + doy
  era * 146097 + doe - 719468

/-- Model of app.py `_to_unix_utc_midnight` (lines 87-97): strip, parse as
    `MM/DD/YYYY` when a slash is present and as `YYYY-MM-DD` otherwise, and
    return the Unix timestamp of UTC midnight of that date. -/
def to_unix_utc_midnight (s : String) : Option Int :=
  let s := pyStrip s
  (if s.data.contains '/' then strptime_mdY s else strptime_Ymd s).map fun ymd =>
    86400 * daysFromCivil ymd.1 ymd.2.1 ymd.2.2

/-- Inverse of `daysFromCivil` (Hinnant's civil-from-days): the Gregorian date
    of day `z0` counted from 1970-01-01, used to model
    `pd.to_datetime(ts, unit="s", utc=True).strftime("%Y-%m-%d")`. -/
def civilFromDays (z0 : Int) : Int × Nat × Nat :=
  let z := z0 + 719468
  let era : Int := (if 0 ≤ z then z else z - 146096).tdiv 146097
  let doe : Int := z - era * 146097
  let yoe : Int := (doe - doe.tdiv 1460 + doe.tdiv 36524 - doe.tdiv 146096).tdiv 365
  let y : Int := yoe + era * 400
  let doy : Int := doe - (365 * yoe + yoe.tdiv 4 - yoe.tdiv 100)
  let mp : Int := (5 * doy + 2).tdiv 153
  let d : Int := doy - (153 * mp + 2).tdiv 5 + 1
  let m : Int := mp + (if mp < 10 then 3 else -9)
  (if m ≤ 2 then y + 1 else y, m.toNat, d.toNat)

/-- ISO `YYYY-MM-DD` rendering of an epoch-seconds timestamp at UTC. -/
def isoOfEpoch (t : Int) : String :=
  let c := civilFromDays (t.fdiv 86400)
  pad 4 c.1.toNat ++ "-" ++ pad 2 c.2.1 ++ "-" ++ pad 2 c.2.2

/-! ### Row schema and the chart source adapter (app.py lines 100-192) -/

/-- One row of the fixed adapter DataFrame schema. `volume` has already been
    cast to int64; `ret` is the per-ticker returns column, `none` until (and
    unless) the returns step fills it. -/
structure Row where
  datetime : String
  ticker : String
  «open» : Option ℚ
  high : Option ℚ
  low : Option ℚ
  close : Option ℚ
  adjclose : Option ℚ
  volume : Int
  openinterest : Int
  ret : Option ℚ
deriving Repr, DecidableEq

/-- Parsed body of a Yahoo v8 chart response: the timestamp array and the
    parallel quote/adjclose arrays. Cell values are the post-`to_numeric`
    numbers, so a null or unparseable cell is `none`. A column missing from
    the response (`.get` returning `None`) is modelled by the caller passing an
    all-`none` list; pandas raises for parallel arrays of unequal length, so
    the theorems below impose equal lengths where row positions matter. -/
structure ChartResp where
  ts : List Int
  «open» : List (Option ℚ)
  high : List (Option ℚ)
  low : List (Option ℚ)
  close : List (Option ℚ)
  volume : List (Option ℚ)
  adjclose : List (Option ℚ)
deriving Repr

/-- Model of app.py line 180: `to_numeric(errors="coerce").fillna(0).astype("int64")`.
    A NaN (unparseable or null) cell becomes 0; a numeric cell is truncated
    toward zero as numpy's int64 cast does. -/
def coerceVolume : Option ℚ → Int
  | none => 0
  | some q => q.num.tdiv (q.den : Int)

/-- Row `i` of the chart DataFrame (app.py lines 157-180) before the dropna
    filter on `close`. -/
def mkChartRow (ticker : String) (resp : ChartResp) (i : Nat) : Row :=
  { datetime := isoOfEpoch (resp.ts.getD i 0)
    ticker := pyUpper ticker
    «open» := resp.«open».getD i none
    high := resp.high.getD i none
    low := resp.low.getD i none
    close := resp.close.getD i none
    adjclose := resp.adjclose.getD i none
    volume := coerceVolume (resp.volume.getD i none)
    openinterest := 0
    ret := none }

/-- Model of the response-shaping part of one `_fetch_chart` attempt (app.py
    lines 144-183): fail when the timestamp list is empty, build one row per
    timestamp, drop exactly the rows whose raw `close` cell is null, and coerce
    `volume`. The HTTP leg is outside the embedding; the surrounding retry loop
    is modelled by `retryRun`. -/
def chartFrame (ticker : String) (resp : ChartResp) : Except String (List Row) :=
  if resp.ts.isEmpty then Except.error "No timestamps returned"
  else
    Except.ok
      (((List.range resp.ts.length).filter
          (fun i => (resp.close.getD i none).isSome)).map (mkChartRow ticker resp))

/-! ### The tabular (yahoo_fin) source adapter (app.py lines 195-237) -/

/-- One row of the DataFrame `yahoo_fin.get_data` returns, after
    `_fetch_yahoo_fin` has reset the index into a `datetime` column: the
    rendered ISO date and the six expected cells, each `none` when null (or,
    for `volume`, when `to_numeric` cannot parse it). The NaT case of an
    unparseable date cell is not modelled; no claim touches this adapter's
    date column. -/
structure YfRow where
  date : String
  «open» : Option ℚ
  high : Option ℚ
  low : Option ℚ
  close : Option ℚ
  adjclose : Option ℚ
  volume : Option ℚ
deriving Repr, DecidableEq

/-- The result of `yahoo_fin.get_data` as `_fetch_yahoo_fin` sees it after
    the reset/rename steps of app.py lines 222-224: the DataFrame's column
    names and its rows. -/
structure YfResp where
  cols : List String
  rows : List YfRow
deriving Repr

/-- The column set `_fetch_yahoo_fin` requires (app.py line 227). -/
def yfExpected : List String :=
  ["open", "high", "low", "close", "adjclose", "volume"]

/-- The output row `_fetch_yahoo_fin` produces from one input row (app.py
    lines 232-236): uppercase ticker and zero open interest stamped, volume
    coerced to int64 with null or unparseable cells becoming 0. -/
def mkYfRowOut (ticker : String) (r : YfRow) : Row :=
  { datetime := r.date
    ticker := pyUpper ticker
    «open» := r.«open»
    high := r.high
    low := r.low
    close := r.close
    adjclose := r.adjclose
    volume := coerceVolume r.volume
    openinterest := 0
    ret := none }

/-- Model of the shaping part of `_fetch_yahoo_fin` (app.py lines 218-237):
    fail on an empty result (line 218), fail when one of the six expected
    columns is missing (lines 227-230, message content abbreviated), and
    otherwise emit exactly one output row per input row — unlike the chart
    adapter, nothing here drops a row. -/
def yahooFinFrame (ticker : String) (resp : YfResp) : Except String (List Row) :=
  if resp.rows.isEmpty then
    Except.error "No data returned from yahoo_fin.get_data"
  else if yfExpected.all (fun c => resp.cols.contains c) then
    Except.ok (resp.rows.map (mkYfRowOut ticker))
  else
    Except.error "Missing columns from yahoo_fin"

/-! ### Retry with exponential backoff (app.py lines 135-192) -/

/-- Model of the retry loop of `_fetch_chart`: `i` is the current attempt
    index, the second argument the number of attempts left. One attempt body
    (HTTP call plus response shaping) is abstracted as `op`; the second
    component of the result accumulates the seconds slept in backoff. -/
def retryAux (op : Nat → Except String α) (b : ℚ) : Nat → Nat → Except String α × ℚ
  | _, 0 => (Except.error "chart fetch failed: None", 0)
  | i, n + 1 =>
    match op i with
    | Except.ok a => (Except.ok a, 0)
    | Except.error e =>
      if n = 0 then (Except.error ("chart fetch failed: " ++ e), 0)
      else
        let r := retryAux op b (i + 1) n
        (r.1, b * 2 ^ i + r.2)

/-- `for attempt in range(retries)` of app.py lines 136-192, starting at
    attempt 0. -/
def retryRun (retries : Nat) (b : ℚ) (op : Nat → Except String α) :
    Except String α × ℚ :=
  retryAux op b 0 retries

/-! ### Per-ticker transforms (app.py lines 292-301) -/

/-- Model of app.py lines 295-296: replace the `close` column by the
    `adjclose` column, row for row. Both adapter schemas always carry an
    `adjclose` column, so the `"adjclose" in df.columns` guard is always true
    and only the request flag decides whether this runs. -/
def substituteAdjClose (df : List Row) : List Row :=
  df.map fun r => { r with close := r.adjclose }

/-- Comparison used by `df.sort_values(["datetime"])`: string order on the ISO
    date strings. -/
def dateLE (a b : Row) : Bool := lexLE a.datetime.data b.datetime.data

/-- pandas `Series.pct_change()` on the `close` column with its default
    forward fill (`fill_method='pad'`, the default on every pandas release
    contemporary with this code): each null close is padded with the last
    non-null close before it, every return is the quotient of consecutive
    padded values minus one, a return is null exactly when either padded
    operand is still missing (the first row, and rows before any close has
    been seen). The accumulator is the padded value of the previous row —
    `r.close.or prev` is the padded value of the current row. Exact rationals
    stand in for floats (float infinities from a zero close are not
    modelled). -/
def pctChangeFrom : Option ℚ → List Row → List Row
  | _, [] => []
  | prev, r :: rs =>
    { r with
        ret :=
          match prev, r.close.or prev with
          | some p, some c => some (c / p - 1)
          | _, _ => none } :: pctChangeFrom (r.close.or prev) rs

/-- Model of the returns step (app.py lines 299-301): sort the ticker frame by
    `datetime`, then `pct_change` on `close`. `sort_values` is modelled as a
    merge sort; no claim depends on the tie order among equal dates. -/
def addReturns (df : List Row) : List Row :=
  pctChangeFrom none (df.mergeSort dateLE)

/-- The per-ticker shaping of app.py lines 292-301, in source order: adjusted
    close substitution first, then the returns step. -/
def transform (useAdj includeRet : Bool) (df : List Row) : List Row :=
  let df := if useAdj then substituteAdjClose df else df
  if includeRet then addReturns df else df

/-! ### Request validation (app.py line 253) and pipeline loop (lines 262-316) -/

/-- Model of app.py line 253: strip each entry, drop the empty ones, uppercase
    the rest. No deduplication is performed. -/
def normalizeTickers (ts : List String) : List String :=
  (ts.filter fun t => !(trimChars t.data).isEmpty).map fun t => pyUpper (pyStrip t)

/-- The request fields that the pipeline body reads. `hasBatch` and
    `hasPortfolio` are the truthiness of the (stripped) `batch_id` and
    `portfolio_id` values at app.py lines 334 and 338. -/
structure Params where
  strict : Bool
  use_adjclose_as_close : Bool
  include_adjclose_column : Bool
  include_returns : Bool
  hasBatch : Bool
  hasPortfolio : Bool
deriving Repr, DecidableEq

/-- Observable state of the ticker loop of app.py lines 262-313: the collected
    per-ticker frames, the accumulated `(ticker, error)` failure records, the
    tickers for which a fetch was actually attempted, and the strict-mode
    abort (failing ticker and cause) when one occurred. -/
structure LoopState where
  frames : List (List Row)
  failed : List (String × String)
  attempted : List String
  abort : Option (String × String)
deriving Repr

/-- The ticker loop of app.py lines 266-313. `fetch` abstracts the per-ticker
    fetch strategy dispatch of lines 268-290 (chart / yahoo_fin / auto,
    including retries); on success the per-ticker transform of lines 292-301
    is applied. In strict mode the first failure is recorded and the loop
    aborts before any later ticker is fetched. The unconditional throttling
    sleep of lines 311-313 has no observable effect in the embedding. -/
def runTickers (p : Params) (fetch : String → Except String (List Row)) :
    List String → LoopState
  | [] => { frames := [], failed := [], attempted := [], abort := none }
  | t :: rest =>
    match fetch t with
    | Except.ok df =>
      let r := runTickers p fetch rest
      { r with
          frames := transform p.use_adjclose_as_close p.include_returns df :: r.frames
          attempted := t :: r.attempted }
    | Except.error e =>
      if p.strict then
        { frames := [], failed := [(t, e)], attempted := [t], abort := some (t, e) }
      else
        let r := runTickers p fetch rest
        { r with failed := (t, e) :: r.failed, attempted := t :: r.attempted }

/-! ### Output columns (app.py lines 320-352) and final sort (line 354) -/

/-- app.py line 322. -/
def base_cols : List String :=
  ["datetime", "ticker", "open", "high", "low", "close", "volume", "openinterest"]

/-- Python `list.insert(idx, x)`. -/
def listInsert (idx : Nat) (x : String) (l : List String) : List String :=
  l.take idx ++ [x] ++ l.drop idx

/-- Model of the out_cols construction of app.py lines 320-349. `mergedCols`
    is the column list of the concatenated per-ticker frames; the id columns
    are inserted into the merged DataFrame separately (`mergedColumns`). -/
def buildOutCols (includeAdj includeRet hasBatch hasPortfolio : Bool)
    (mergedCols : List String) : List String :=
  let out := base_cols
  let out :=
    if includeAdj && mergedCols.contains "adjclose" then
      listInsert (out.indexOf "close" + 1) "adjclose" out
    else out
  let out := if includeRet && mergedCols.contains "ret" then out ++ ["ret"] else out
  let out := if hasBatch then "batch_id" :: out else out
  if hasPortfolio then
    let out2 := (if hasBatch then ["batch_id"] else []) ++ ["portfolio_id"] ++ base_cols
    let out2 :=
      if includeAdj && mergedCols.contains "adjclose" then
        listInsert (out2.indexOf "close" + 1) "adjclose" out2
      else out2
    if includeRet && mergedCols.contains "ret" then out2 ++ ["ret"] else out2
  else out

/-- Columns of the merged DataFrame at the filter of app.py line 352: the id
    columns inserted at lines 335 and 340 plus the adapter frame columns. -/
def mergedColumns (hasBatch hasPortfolio : Bool) (cols0 : List String) : List String :=
  (if hasBatch then ["batch_id"] else []) ++
    (if hasPortfolio then ["portfolio_id"] else []) ++ cols0

/-- Model of app.py lines 320-352: build out_cols in both the portfolio-id and
    the no-portfolio-id branch, then keep only the columns actually present in
    the merged DataFrame. -/
def finalCols (includeAdj includeRet hasBatch hasPortfolio : Bool)
    (cols0 : List String) : List String :=
  (buildOutCols includeAdj includeRet hasBatch hasPortfolio cols0).filter
    (fun c => (mergedColumns hasBatch hasPortfolio cols0).contains c)

/-- The final column list as the spec words it (§3 MergedTable, §4.7): the
    fixed logical order `batch_id?, portfolio_id?, datetime, ticker, open,
    high, low, close, adjclose?, volume, openinterest, ret?`, keeping an
    optional column only when requested, and silently dropping any declared
    column that is absent from the merged data. -/
def specFinalCols (includeAdj includeRet hasBatch hasPortfolio : Bool)
    (cols0 : List String) : List String :=
  ((if hasBatch then ["batch_id"] else []) ++
      (if hasPortfolio then ["portfolio_id"] else []) ++
      ["datetime", "ticker", "open", "high", "low", "close"] ++
      (if includeAdj then ["adjclose"] else []) ++
      ["volume", "openinterest"] ++
      (if includeRet then ["ret"] else [])).filter
    (fun c => (mergedColumns hasBatch hasPortfolio cols0).contains c)

/-- Lexicographic (ticker, datetime) comparison used by
    `sort_values(["ticker", "datetime"], kind="mergesort")`. -/
def rowKeyLE (a b : Row) : Bool :=
  lexLT a.ticker.data b.ticker.data ||
    (decide (a.ticker = b.ticker) && lexLE a.datetime.data b.datetime.data)

/-- Model of app.py line 354: stable mergesort by ticker, then datetime. -/
def finalSort (rows : List Row) : List Row := rows.mergeSort rowKeyLE

/-- Columns of every per-ticker frame after `transform` (membership only; the
    adapters always produce `adjclose`, and `ret` exists exactly when returns
    were requested). -/
def frameCols (includeRet : Bool) : List String :=
  ["datetime", "open", "high", "low", "close", "volume", "adjclose", "ticker",
      "openinterest"] ++ if includeRet then ["ret"] else []

/-- The merged output table: selected column list plus the row set. Column
    selection (`merged[out_cols]`) drops no rows and keeps row order, so the
    model keeps the full row records and the column list side by side. -/
structure MergedTable where
  cols : List String
  rows : List Row
deriving Repr

/-- The two request-fatal pipeline errors of app.py lines 309 and 316. -/
inductive RunError where
  | strictAbort (ticker cause : String)
  | allTickersFailed (failures : List (String × String))
deriving Repr, DecidableEq

/-- Everything observable about one pipeline run: the response or error,
    the accumulated failure records (the `failed` local of app.py line 263,
    which exists even when a strict abort is raised), and the tickers for
    which a fetch was attempted. -/
structure RunOutcome where
  result : Except RunError MergedTable
  failures : List (String × String)
  attempted : List String
deriving Repr

/-- Model of the pipeline body of `portfolio_ohlcv_csv` (app.py lines
    262-354): run the ticker loop; surface the strict-mode abort (line 309) or
    the all-tickers-failed error (line 316); otherwise concatenate the frames,
    build the final column list and apply the final stable sort. -/
def portfolioRun (p : Params) (fetch : String → Except String (List Row))
    (tickers : List String) : RunOutcome :=
  let st := runTickers p fetch tickers
  match st.abort with
  | some te =>
    { result := Except.error (RunError.strictAbort te.1 te.2)
      failures := st.failed
      attempted := st.attempted }
  | none =>
    if st.frames.isEmpty then
      { result := Except.error (RunError.allTickersFailed st.failed)
        failures := st.failed
        attempted := st.attempted }
    else
      { result :=
          Except.ok
            { cols :=
                finalCols p.include_adjclose_column p.include_returns p.hasBatch
                  p.hasPortfolio (frameCols p.include_returns)
              rows := finalSort st.frames.flatten }
        failures := st.failed
        attempted := st.attempted }

/-! ### Order lemmas for the lexicographic comparisons -/

theorem lexLE_refl : ∀ x, lexLE x x = true
  | [] => rfl
  | a :: as => by simp [lexLE, lexLE_refl as]

theorem lexLE_total : ∀ x y, (lexLE x y || lexLE y x) = true
  | [], _ => by simp [lexLE]
  | _ :: _, [] => by simp [lexLE]
  | a :: as, b :: bs => by
    simp only [lexLE]
    by_cases hab : a < b
    · simp [hab]
    · by_cases hba : b < a
      · simp [hab, hba]
      · have hEq : a = b := le_antisymm (not_lt.mp hba) (not_lt.mp hab)
        subst hEq
        simpa [hab] using lexLE_total as bs

theorem lexLE_trans : ∀ x y z, lexLE x y = true → lexLE y z = true → lexLE x z = true
  | [], _, _, _, _ => rfl
  | _ :: _, [], _, h₁, _ => by simp [lexLE] at h₁
  | _ :: _, _ :: _, [], _, h₂ => by simp [lexLE] at h₂
  | a :: as, b :: bs, c :: cs, h₁, h₂ => by
    simp only [lexLE] at h₁ h₂ ⊢
    by_cases hab : a < b
    · by_cases hbc : b < c
      · simp [lt_trans hab hbc]
      · by_cases hcb : c < b
        · simp [hbc, hcb] at h₂
        · have hEq : b = c := le_antisymm (not_lt.mp hcb) (not_lt.mp hbc)
          subst hEq
          simp [hab]
    · by_cases hba : b < a
      · simp [hab, hba] at h₁
      · have hEq : a = b := le_antisymm (not_lt.mp hba) (not_lt.mp hab)
        subst hEq
        by_cases hac : a < c
        · simp [hac]
        · by_cases hca : c < a
          · simp [hac, hca] at h₂
          · simp [lt_irrefl] at h₁
            simp [hac, hca] at h₂ ⊢
            exact lexLE_trans as bs cs h₁ h₂

theorem lexLT_irrefl : ∀ x, lexLT x x = false
  | [] => rfl
  | a :: as => by simp [lexLT, lexLT_irrefl as]

theorem lexLT_asymm : ∀ x y, lexLT x y = true → lexLT y x = false
  | [], [], h => by simp [lexLT] at h
  | [], _ :: _, _ => rfl
  | _ :: _, [], h => by simp [lexLT] at h
  | a :: as, b :: bs, h => by
    simp only [lexLT] at h ⊢
    by_cases hab : a < b
    · simp [hab, lt_asymm hab]
    · by_cases hba : b < a
      · simp [hab, hba] at h
      · have hEq : a = b := le_antisymm (not_lt.mp hba) (not_lt.mp hab)
        subst hEq
        simp [hab] at h ⊢
        exact lexLT_asymm as bs h

theorem lexLT_trans : ∀ x y z, lexLT x y = true → lexLT y z = true → lexLT x z = true
  | [], [], _, h₁, _ => by simp [lexLT] at h₁
  | [], _ :: _, [], _, h₂ => by simp [lexLT] at h₂
  | [], _ :: _, _ :: _, _, _ => rfl
  | _ :: _, [], _, h₁, _ => by simp [lexLT] at h₁
  | _ :: _, _ :: _, [], _, h₂ => by simp [lexLT] at h₂
  | a :: as, b :: bs, c :: cs, h₁, h₂ => by
    simp only [lexLT] at h₁ h₂ ⊢
    by_cases hab : a < b
    · by_cases hbc : b < c
      · simp [lt_trans hab hbc]
      · by_cases hcb : c < b
        · simp [hbc, hcb] at h₂
        · have hEq : b = c := le_antisymm (not_lt.mp hcb) (not_lt.mp hbc)
          subst hEq
          simp [hab]
    · by_cases hba : b < a
      · simp [hab, hba] at h₁
      · have hEq : a = b := le_antisymm (not_lt.mp hba) (not_lt.mp hab)
        subst hEq
        by_cases hac : a < c
        · simp [hac]
        · by_cases hca : c < a
          · simp [hac, hca] at h₂
          · simp [hab] at h₁
            simp [hac, hca] at h₂ ⊢
            exact lexLT_trans as bs cs h₁ h₂

theorem lexLT_eq_of_not : ∀ x y, lexLT x y = false → lexLT y x = false → x = y
  | [], [], _, _ => rfl
  | [], _ :: _, h₁, _ => by simp [lexLT] at h₁
  | _ :: _, [], _, h₂ => by simp [lexLT] at h₂
  | a :: as, b :: bs, h₁, h₂ => by
    simp only [lexLT] at h₁ h₂
    by_cases hab : a < b
    · simp [hab] at h₁
    · by_cases hba : b < a
      · simp [hba, hab] at h₂
      · have hEq : a = b := le_antisymm (not_lt.mp hba) (not_lt.mp hab)
        subst hEq
        simp [hab] at h₁ h₂
        rw [lexLT_eq_of_not as bs h₁ h₂]

theorem lexLT_le : ∀ x y, lexLT x y = true → lexLE x y = true
  | [], _, _ => rfl
  | _ :: _, [], h => by simp [lexLT] at h
  | a :: as, b :: bs, h => by
    simp only [lexLT] at h
    simp only [lexLE]
    by_cases hab : a < b
    · simp [hab]
    · by_cases hba : b < a
      · simp [hab, hba] at h
      · simp [hab, hba] at h ⊢
        exact lexLT_le as bs h

/-! ### The final (ticker, datetime) key order -/

theorem rowKeyLE_total (a b : Row) : (rowKeyLE a b || rowKeyLE b a) = true := by
  simp only [rowKeyLE, Bool.or_eq_true, Bool.and_eq_true, decide_eq_true_eq]
  by_cases h₁ : lexLT a.ticker.data b.ticker.data = true
  · exact Or.inl (Or.inl h₁)
  · by_cases h₂ : lexLT b.ticker.data a.ticker.data = true
    · exact Or.inr (Or.inl h₂)
    · have hd : a.ticker.data = b.ticker.data :=
        lexLT_eq_of_not _ _ (by simpa using h₁) (by simpa using h₂)
      have ht : a.ticker = b.ticker := String.ext hd
      have htot := lexLE_total a.datetime.data b.datetime.data
      rcases (Bool.or_eq_true _ _).mp htot with h | h
      · exact Or.inl (Or.inr ⟨ht, h⟩)
      · exact Or.inr (Or.inr ⟨ht.symm, h⟩)

theorem rowKeyLE_trans (a b c : Row) (h₁ : rowKeyLE a b = true)
    (h₂ : rowKeyLE b c = true) : rowKeyLE a c = true := by
  simp only [rowKeyLE, Bool.or_eq_true, Bool.and_eq_true, decide_eq_true_eq] at h₁ h₂ ⊢
  rcases h₁ with h₁ | ⟨h₁e, h₁d⟩
  · rcases h₂ with h₂ | ⟨h₂e, h₂d⟩
    · exact Or.inl (lexLT_trans _ _ _ h₁ h₂)
    · exact Or.inl (by rw [← h₂e]; exact h₁)
  · rcases h₂ with h₂ | ⟨h₂e, h₂d⟩
    · exact Or.inl (by rw [h₁e]; exact h₂)
    · exact Or.inr ⟨h₁e.trans h₂e, lexLE_trans _ _ _ h₁d h₂d⟩

theorem rowKeyLE_of_eqKeys (a b : Row) (ht : a.ticker = b.ticker)
    (hd : a.datetime = b.datetime) : rowKeyLE a b = true := by
  simp [rowKeyLE, ht, hd, lexLE_refl]

/-! ### Stability of mergeSort, stated as preservation of key classes -/

theorem mergeSort_filter_eq {α : Type} (le : α → α → Bool)
    (htrans : ∀ a b c, le a b = true → le b c = true → le a c = true)
    (htotal : ∀ a b, (le a b || le b a) = true)
    (p : α → Bool) (l : List α)
    (hp : ∀ a b, p a = true → p b = true → le a b = true) :
    (l.mergeSort le).filter p = l.filter p := by
  have hsub : List.Sublist (l.filter p) l := List.filter_sublist l
  have hmem : ∀ a ∈ l.filter p, p a = true := fun a ha => (List.mem_filter.mp ha).2
  have hpw : (l.filter p).Pairwise (fun a b => le a b = true) :=
    List.pairwise_of_forall_mem_list fun a ha b hb => hp a b (hmem a ha) (hmem b hb)
  have hS : List.Sublist (l.filter p) (l.mergeSort le) :=
    List.sublist_mergeSort htrans htotal hpw hsub
  have hSf : (l.filter p).filter p = l.filter p := List.filter_eq_self.mpr hmem
  have hsub2 : List.Sublist (l.filter p) ((l.mergeSort le).filter p) := by
    rw [← hSf]
    exact List.Sublist.filter p hS
  have hperm : ((l.mergeSort le).filter p).Perm (l.filter p) :=
    (List.mergeSort_perm l le).filter p
  exact (hsub2.eq_of_length hperm.length_eq.symm).symm

/-! ### C5: retry and exponential backoff -/

theorem retryAux_ok_after_failures {α : Type} (op : Nat → Except String α) (b : ℚ)
    (a : α) (err : Nat → String) :
    ∀ (k i n : Nat), k < n → (∀ j, j < k → op (i + j) = Except.error (err (i + j))) →
      op (i + k) = Except.ok a →
      retryAux op b i n = (Except.ok a, ∑ j ∈ Finset.range k, b * 2 ^ (i + j)) := by
  intro k
  induction k with
  | zero =>
    intro i n hn hfail hok
    obtain ⟨m, rfl⟩ : ∃ m, n = m + 1 := ⟨n - 1, by omega⟩
    simp only [Nat.add_zero] at hok
    simp [retryAux, hok]
  | succ k ih =>
    intro i n hn hfail hok
    obtain ⟨m, rfl⟩ : ∃ m, n = m + 1 := ⟨n - 1, by omega⟩
    have h0 : op i = Except.error (err i) := by
      have := hfail 0 (Nat.succ_pos k)
      simpa using this
    have hm : m ≠ 0 := by omega
    have hrec := ih (i + 1) m (by omega)
      (fun j hj => by
        have := hfail (j + 1) (by omega)
        have hidx : i + (j + 1) = i + 1 + j := by omega
        rwa [hidx] at this)
      (by
        have hidx : i + (k + 1) = i + 1 + k := by omega
        rwa [hidx] at hok)
    simp only [retryAux, h0, hm, if_false, hrec]
    refine Prod.ext rfl ?_
    simp only
    rw [Finset.sum_range_succ']
    have hsum : ∀ j ∈ Finset.range k, b * 2 ^ (i + 1 + j) = b * 2 ^ (i + (j + 1)) := by
      intro j _
      have : i + 1 + j = i + (j + 1) := by omega
      rw [this]
    rw [Finset.sum_congr rfl hsum]
    ring

theorem retryAux_all_fail {α : Type} (op : Nat → Except String α) (b : ℚ)
    (err : Nat → String) :
    ∀ (n i : Nat), 0 < n → (∀ j, j < n → op (i + j) = Except.error (err (i + j))) →
      retryAux op b i n =
        ((Except.error ("chart fetch failed: " ++ err (i + (n - 1))) : Except String α),
          ∑ j ∈ Finset.range (n - 1), b * 2 ^ (i + j)) := by
  intro n
  induction n with
  | zero => intro i h; omega
  | succ m ih =>
    intro i _ hfail
    have h0 : op i = Except.error (err i) := by simpa using hfail 0 (Nat.succ_pos m)
    by_cases hm : m = 0
    · subst hm
      simp [retryAux, h0]
    · have hrec := ih (i + 1) (by omega)
        (fun j hj => by
          have := hfail (j + 1) (by omega)
          have hidx : i + (j + 1) = i + 1 + j := by omega
          rwa [hidx] at this)
      simp only [retryAux, h0, hm, if_false, hrec]
      refine Prod.ext ?_ ?_
      · simp only
        have : i + 1 + (m - 1) = i + (m + 1 - 1) := by omega
        rw [this]
      · simp only
        obtain ⟨m₀, rfl⟩ : ∃ m₀, m = m₀ + 1 := ⟨m - 1, by omega⟩
        simp only [Nat.add_sub_cancel]
        rw [Finset.sum_range_succ']
        have hsum : ∀ j ∈ Finset.range m₀, b * 2 ^ (i + 1 + j) = b * 2 ^ (i + (j + 1)) := by
          intro j _
          have : i + 1 + j = i + (j + 1) := by omega
          rw [this]
        rw [Finset.sum_congr rfl hsum]
        ring

/-- C5: for a chart-style fetch with `retries ≥ 1` and backoff base `b`,
    attempts are numbered `0 .. retries-1`; if attempts `0 .. k-1` fail and
    attempt `k < retries` succeeds, the fetch returns that attempt's result
    with total backoff `∑ j < k, b * 2 ^ j` (one wait of `b * 2 ^ j` per
    failed attempt `j`, so `b*1 + b*2` for two failures); if every attempt
    fails, the fetch propagates an error wrapping the last underlying error
    after backoff `∑ j < retries - 1, b * 2 ^ j`. -/
theorem retry_backoff_spec {α : Type} (retries : Nat) (b : ℚ)
    (op : Nat → Except String α) (a : α) (k : Nat) (err : Nat → String)
    (hr : 1 ≤ retries) :
    ((∀ j, j < k → op j = Except.error (err j)) → k < retries →
        op k = Except.ok a →
        retryRun retries b op = (Except.ok a, ∑ j ∈ Finset.range k, b * 2 ^ j)) ∧
      ((∀ j, j < retries → op j = Except.error (err j)) →
        retryRun retries b op =
          (Except.error ("chart fetch failed: " ++ err (retries - 1)),
            ∑ j ∈ Finset.range (retries - 1), b * 2 ^ j)) := by
  constructor
  · intro hfail hk hok
    have := retryAux_ok_after_failures op b a err k 0 retries hk
      (fun j hj => by simpa using hfail j hj) (by simpa using hok)
    simpa [retryRun] using this
  · intro hfail
    have := retryAux_all_fail op b err retries 0 (by omega)
      (fun j hj => by simpa using hfail j hj)
    simpa [retryRun] using this

/-- Witness for C5: with `retries = 3`, backoff base `1/2`, failures on
    attempts 0 and 1 and success (value 42) on attempt 2, the fetch returns
    42 after total backoff `1/2 + 1 = 3/2`. -/
theorem retry_backoff_spec_witness :
    retryRun 3 (1/2 : ℚ)
        (fun i => if i < 2 then Except.error ("E" ++ toString i) else Except.ok 42) =
      (Except.ok 42, 3/2) := by
  have h := (retry_backoff_spec 3 (1/2 : ℚ)
      (fun i => if i < 2 then Except.error ("E" ++ toString i) else Except.ok 42)
      42 2 (fun i => "E" ++ toString i) (by norm_num)).1
    (by intro j hj; interval_cases j <;> rfl) (by norm_num) (by rfl)
  rw [h]
  norm_num [Finset.sum_range_succ]

/-! ### Positional constructors, for concrete test data -/

/-- Positional `Row` constructor (argument order: datetime, ticker, open, high,
    low, close, adjclose, volume, openinterest, ret). -/
def mkRow (dt tk : String) (o h l c a : Option ℚ) (v oi : Int) (re : Option ℚ) : Row :=
  { datetime := dt, ticker := tk, «open» := o, high := h, low := l, close := c,
    adjclose := a, volume := v, openinterest := oi, ret := re }

/-- Positional `ChartResp` constructor (argument order: ts, open, high, low,
    close, volume, adjclose). -/
def mkResp (ts : List Int) (o h l c v a : List (Option ℚ)) : ChartResp :=
  { ts := ts, «open» := o, high := h, low := l, close := c, volume := v,
    adjclose := a }

/-! ### C7: date normalization -/

/-- C7 counterexample: the input `"foo/bar"` matches neither the ISO
    `YYYY-MM-DD` pattern nor the slash-delimited `MM/DD/YYYY` pattern, yet the
    slash-delimited-string encoding does not fail: `_to_mmddyyyy` returns the
    input unchanged, because any string containing a slash is passed through
    without validation. -/
theorem date_normalization_cex :
    strptime_mdY "foo/bar" = none ∧ strptime_Ymd "foo/bar" = none ∧
      to_mmddyyyy "foo/bar" = some "foo/bar" :=
  ⟨rfl, rfl, rfl⟩

/-- C7 amended: for every input whose stripped form matches neither accepted
    date pattern, the UTC-midnight epoch-seconds encoding
    (`_to_unix_utc_midnight`) fails; the slash-delimited-string encoding
    (`_to_mmddyyyy`), by contrast, does not enforce the patterns: it returns
    any slash-containing input as-is without validation, and for slash-free
    inputs it accepts everything `datetime.fromisoformat` accepts — including
    date-with-time strings that match neither plain pattern — reformatting
    the parsed calendar date as `MM/DD/YYYY`. -/
theorem date_normalization_amended (s : String)
    (h₁ : strptime_mdY (pyStrip s) = none) (h₂ : strptime_Ymd (pyStrip s) = none) :
    to_unix_utc_midnight s = none ∧
      ((pyStrip s).data.contains '/' = true → to_mmddyyyy s = some (pyStrip s)) ∧
      ((pyStrip s).data.contains '/' = false → ∀ y m d,
        fromisoformat_date (pyStrip s) = some (y, m, d) →
        to_mmddyyyy s = some (pad 2 m ++ "/" ++ pad 2 d ++ "/" ++ pad 4 y)) := by
  refine ⟨?_, ?_, ?_⟩
  · simp only [to_unix_utc_midnight]
    split
    · rw [h₁]; rfl
    · rw [h₂]; rfl
  · intro hc
    simp only [to_mmddyyyy]
    rw [if_pos hc]
  · intro hc y m d hf
    simp only [to_mmddyyyy]
    rw [if_neg (by simp only [hc]; decide), hf]
    rfl

/-- Witness for C7 (amended): `"foo/bar"` matches neither pattern yet passes
    through unvalidated, and the slash-free `"2011-11-04 00:05:23"` — which
    also matches neither plain date pattern — is accepted via `fromisoformat`
    and reformatted, rather than failing. -/
theorem date_normalization_amended_witness :
    (to_unix_utc_midnight "foo/bar" = none ∧
        to_mmddyyyy "foo/bar" = some "foo/bar") ∧
      (to_unix_utc_midnight "2011-11-04 00:05:23" = none ∧
        to_mmddyyyy "2011-11-04 00:05:23" = some "11/04/2011") := by
  have h := date_normalization_amended "foo/bar" rfl rfl
  have hTime := date_normalization_amended "2011-11-04 00:05:23" rfl rfl
  refine ⟨⟨h.1, h.2.1 rfl⟩, hTime.1, ?_⟩
  have hres := hTime.2.2 rfl 2011 11 4 rfl
  rw [hres]
  rfl

/-! ### C8: ticker normalization -/

/-- C8 counterexample: the validated ticker list for `["AAPL", "aapl"]` is
    `["AAPL", "AAPL"]` — the case-equal entries are uppercased but not
    deduplicated, so the list the pipeline iterates over is not a set of
    distinct symbols. -/
theorem ticker_dedup_cex :
    normalizeTickers ["AAPL", "aapl"] = ["AAPL", "AAPL"] ∧
      ¬ (normalizeTickers ["AAPL", "aapl"]).Nodup :=
  ⟨rfl, by decide⟩

/-- C8 amended: the ticker list the pipeline iterates over is the request list
    with entries stripped, empties dropped and the rest uppercased, but with
    duplicates kept: two request entries equal up to case produce the same
    normalized symbol twice, the pipeline fetches that symbol twice, and both
    fetched frames (hence duplicated rows) enter the output. -/
theorem ticker_normalization_amended (p : Params)
    (fetch : String → Except String (List Row)) (t u : String) (df : List Row)
    (hEq : pyUpper (pyStrip t) = pyUpper (pyStrip u))
    (hnt : (trimChars t.data).isEmpty = false)
    (hnu : (trimChars u.data).isEmpty = false)
    (hfetch : fetch (pyUpper (pyStrip t)) = Except.ok df) :
    normalizeTickers [t, u] = [pyUpper (pyStrip t), pyUpper (pyStrip t)] ∧
      (runTickers p fetch (normalizeTickers [t, u])).attempted =
        [pyUpper (pyStrip t), pyUpper (pyStrip t)] ∧
      (runTickers p fetch (normalizeTickers [t, u])).frames =
        [transform p.use_adjclose_as_close p.include_returns df,
          transform p.use_adjclose_as_close p.include_returns df] := by
  have hlist : normalizeTickers [t, u] = [pyUpper (pyStrip t), pyUpper (pyStrip t)] := by
    simp [normalizeTickers, hnt, hnu, ← hEq]
  refine ⟨hlist, ?_, ?_⟩ <;> rw [hlist] <;> simp [runTickers, hfetch]

/-- Witness for C8 (amended): `"AAPL"` and `"aapl"` normalize to the same
    symbol, which is fetched twice; both copies of the fetched frame enter the
    collected frames. -/
theorem ticker_normalization_amended_witness :
    normalizeTickers ["AAPL", "aapl"] = ["AAPL", "AAPL"] ∧
      (runTickers ⟨true, true, true, false, true, true⟩
          (fun x => if x = "AAPL" then Except.ok [] else Except.error "nope")
          (normalizeTickers ["AAPL", "aapl"])).attempted = ["AAPL", "AAPL"] ∧
      (runTickers ⟨true, true, true, false, true, true⟩
          (fun x => if x = "AAPL" then Except.ok [] else Except.error "nope")
          (normalizeTickers ["AAPL", "aapl"])).frames = [[], []] := by
  have h := ticker_normalization_amended ⟨true, true, true, false, true, true⟩
    (fun x => if x = "AAPL" then Except.ok [] else Except.error "nope")
    "AAPL" "aapl" [] rfl rfl rfl rfl
  exact ⟨h.1, h.2.1, h.2.2⟩

/-! ### C9: volume coercion -/

/-- C9 counterexample: a chart response whose volume cell holds the (parseable)
    value -5 produces an emitted row with volume -5: the adapters coerce
    volume to an integer but do not enforce non-negativity. -/
theorem volume_nonneg_cex :
    chartFrame "X"
        (mkResp [86400] [some 1] [some 1] [some 1] [some 1] [some (-5)] [some 1]) =
      Except.ok [mkRow "1970-01-02" "X" (some 1) (some 1) (some 1) (some 1)
        (some 1) (-5) 0 none] ∧ (-5 : Int) < 0 :=
  ⟨rfl, by decide⟩

/-- C9 amended: every row either source adapter emits carries an integer
    volume equal to the int64 coercion of the corresponding volume cell, and
    a null or unparseable cell yields volume 0 with the row kept rather than
    dropped — in the chart adapter only a null close drops a row, and the
    tabular (yahoo_fin) adapter emits exactly one row per input row. Negative
    upstream values pass through unchanged, so non-negativity is not
    guaranteed. -/
theorem volume_coercion_amended (ticker : String) (resp : ChartResp)
    (rows : List Row) (h : chartFrame ticker resp = Except.ok rows)
    (yticker : String) (yresp : YfResp) (yrows : List Row)
    (hy : yahooFinFrame yticker yresp = Except.ok yrows) :
    (∀ i, i < resp.ts.length → (resp.close.getD i none).isSome = true →
        mkChartRow ticker resp i ∈ rows ∧
          (mkChartRow ticker resp i).volume = coerceVolume (resp.volume.getD i none)) ∧
      (∀ i, i < resp.ts.length → (resp.close.getD i none).isSome = true →
        resp.volume.getD i none = none → (mkChartRow ticker resp i).volume = 0) ∧
      yrows = yresp.rows.map (mkYfRowOut yticker) ∧
      (∀ r ∈ yresp.rows, (mkYfRowOut yticker r).volume = coerceVolume r.volume ∧
        (r.volume = none → (mkYfRowOut yticker r).volume = 0)) := by
  have hyparts : yrows = yresp.rows.map (mkYfRowOut yticker) := by
    unfold yahooFinFrame at hy
    split at hy
    · exact absurd hy (by simp)
    · split at hy
      · injection hy with hy
        exact hy.symm
      · exact absurd hy (by simp)
  unfold chartFrame at h
  split at h
  · exact absurd h (by simp)
  · have hrows : rows =
        ((List.range resp.ts.length).filter
          (fun i => (resp.close.getD i none).isSome)).map (mkChartRow ticker resp) := by
      injection h with h
      exact h.symm
    refine ⟨?_, ?_, hyparts, ?_⟩
    · intro i hi hc
      refine ⟨?_, rfl⟩
      rw [hrows]
      exact List.mem_map_of_mem _ (List.mem_filter.mpr ⟨List.mem_range.mpr hi, hc⟩)
    · intro i _ _ hv
      simp only [mkChartRow]
      rw [hv]
      rfl
    · intro r _
      refine ⟨rfl, fun hv => ?_⟩
      simp only [mkYfRowOut]
      rw [hv]
      rfl

/-- Witness for C9 (amended): in the chart adapter a row whose volume cell is
    null survives the close filter and is emitted with volume 0, and the
    yahoo_fin adapter likewise keeps a null-volume row and emits volume 0. -/
theorem volume_coercion_amended_witness :
    (mkChartRow "X"
        (mkResp [86400] [some 1] [some 1] [some 1] [some 1] [none] [some 1]) 0 ∈
        [mkRow "1970-01-02" "X" (some 1) (some 1) (some 1) (some 1) (some 1) 0 0 none]) ∧
      (mkChartRow "X"
        (mkResp [86400] [some 1] [some 1] [some 1] [some 1] [none] [some 1]) 0).volume = 0 ∧
      (mkYfRowOut "x"
        (YfRow.mk "2024-01-05" (some 1) (some 1) (some 1) (some 1) (some 1) none)).volume =
        0 := by
  have h := volume_coercion_amended "X"
    (mkResp [86400] [some 1] [some 1] [some 1] [some 1] [none] [some 1])
    [mkRow "1970-01-02" "X" (some 1) (some 1) (some 1) (some 1) (some 1) 0 0 none] rfl
    "x" (YfResp.mk ["datetime", "open", "high", "low", "close", "adjclose", "volume"]
      [YfRow.mk "2024-01-05" (some 1) (some 1) (some 1) (some 1) (some 1) none])
    [mkYfRowOut "x" (YfRow.mk "2024-01-05" (some 1) (some 1) (some 1) (some 1) (some 1) none)]
    rfl
  refine ⟨(h.1 0 (by decide) (by decide)).1, h.2.1 0 (by decide) (by decide) rfl, ?_⟩
  exact (h.2.2.2 (YfRow.mk "2024-01-05" (some 1) (some 1) (some 1) (some 1) (some 1) none)
    (by simp)).2 rfl

/-! ### C10: adjusted-close substitution including nulls -/

/-- Chart response for the C10 scenario: four trading days; the raw close of
    the last day is null (that row is dropped); the adjclose of the second day
    is null (that row is kept and its close becomes null after substitution). -/
def resp10 : ChartResp :=
  mkResp [86400, 172800, 259200, 345600]
    [some 1, some 1, some 1, some 1] [some 1, some 1, some 1, some 1]
    [some 1, some 1, some 1, some 1] [some 10, some 11, some 12, none]
    [some 100, some 100, some 100, some 100] [some 10, none, some 12, some 13]

/-- The frame the chart adapter produces for `resp10`: the null-raw-close row
    is gone, the null adjclose survives. -/
def rows10 : List Row :=
  [mkRow "1970-01-02" "X" (some 1) (some 1) (some 1) (some 10) (some 10) 100 0 none,
    mkRow "1970-01-03" "X" (some 1) (some 1) (some 1) (some 11) none 100 0 none,
    mkRow "1970-01-04" "X" (some 1) (some 1) (some 1) (some 12) (some 12) 100 0 none]

/-- C10: when adjusted-close substitution runs, the close column becomes the
    adjclose column row for row — null entries included. Concretely, a chart
    response whose raw closes are non-null on the first three days (so those
    rows survive the null-close drop) but whose second adjclose is null yields
    a final close column `[10, null, 12]`, and the null flows into the returns
    computation: pct_change's default pad fill carries the stale price 10 over
    the null, so the padded row's return is `10/10 - 1 = 0` and the next one
    is `12/10 - 1 = 1/5`. -/
theorem adjclose_substitution_nulls :
    (∀ df : List Row, (substituteAdjClose df).map (fun r => r.close) =
        df.map (fun r => r.adjclose)) ∧
      chartFrame "X" resp10 = Except.ok rows10 ∧
      (transform true true rows10).map (fun r => r.close) = [some 10, none, some 12] ∧
      (transform true true rows10).map (fun r => r.ret) =
        [none, some 0, some (1/5)] := by
  have hms : (substituteAdjClose rows10).mergeSort dateLE = substituteAdjClose rows10 :=
    List.mergeSort_of_sorted (by decide)
  have htr : transform true true rows10 = pctChangeFrom none (substituteAdjClose rows10) := by
    show pctChangeFrom none ((substituteAdjClose rows10).mergeSort dateLE) = _
    rw [hms]
  refine ⟨fun df => by simp [substituteAdjClose], rfl, by rw [htr]; rfl, ?_⟩
  rw [htr]
  have hval : (pctChangeFrom none (substituteAdjClose rows10)).map (fun r => r.ret) =
      [none, some ((10 : ℚ) / 10 - 1), some ((12 : ℚ) / 10 - 1)] := rfl
  rw [hval]
  norm_num

/-! ### C3: final row ordering and stability -/

/-- C3: the final sort of the merged table orders rows by ticker (ascending)
    and, within a ticker, by datetime (ascending) — `rowKeyLE` is exactly
    "ticker less, or ticker equal and datetime not greater" in the string
    order pandas uses — the sorted rows are a permutation of the input rows,
    and the sort is stable: for every (ticker, datetime) key, the rows bearing
    exactly that key appear in the output in the order they had before the
    sort. -/
theorem merged_sort_sorted_stable (rows : List Row) :
    (finalSort rows).Pairwise (fun a b => rowKeyLE a b = true) ∧
      (finalSort rows).Perm rows ∧
      ∀ tk dt : String,
        (finalSort rows).filter (fun r => decide (r.ticker = tk ∧ r.datetime = dt)) =
          rows.filter (fun r => decide (r.ticker = tk ∧ r.datetime = dt)) := by
  refine ⟨?_, List.mergeSort_perm rows rowKeyLE, ?_⟩
  · exact List.sorted_mergeSort rowKeyLE_trans rowKeyLE_total rows
  · intro tk dt
    apply mergeSort_filter_eq rowKeyLE rowKeyLE_trans rowKeyLE_total
    intro a b ha hb
    simp only [decide_eq_true_eq] at ha hb
    exact rowKeyLE_of_eqKeys a b (ha.1.trans hb.1.symm) (ha.2.trans hb.2.symm)

/-! ### C1: strict mode aborts at the first failure -/

theorem runTickers_strict_abort (p : Params)
    (fetch : String → Except String (List Row)) (hstrict : p.strict = true) :
    ∀ (pre : List String) (t : String) (post : List String) (e : String),
      (∀ s ∈ pre, ∃ df, fetch s = Except.ok df) →
      fetch t = Except.error e →
      (runTickers p fetch (pre ++ t :: post)).abort = some (t, e) ∧
        (runTickers p fetch (pre ++ t :: post)).failed = [(t, e)] ∧
        (runTickers p fetch (pre ++ t :: post)).attempted = pre ++ [t]
  | [], t, post, e, _, hfail => by
    simp [runTickers, hfail, hstrict]
  | s :: pre, t, post, e, hpre, hfail => by
    obtain ⟨df, hdf⟩ := hpre s (List.mem_cons_self s pre)
    have ih := runTickers_strict_abort p fetch hstrict pre t post e
      (fun x hx => hpre x (List.mem_cons_of_mem s hx)) hfail
    simp [runTickers, hdf, ih.1, ih.2.1, ih.2.2]

/-- C1: with strict mode enabled, when every ticker before `t` fetches
    successfully and the fetch of `t` fails with cause `e`, the pipeline
    records the FetchFailure `(t, e)` (the accumulated failure list is exactly
    `[(t, e)]` — the record is kept, not discarded), surfaces the strict-mode
    abort carrying `t` and `e` instead of producing any output table, and the
    tickers actually fetched are exactly the ones before `t` plus `t` itself:
    nothing after `t` in request order is fetched. -/
theorem strict_mode_abort (p : Params) (fetch : String → Except String (List Row))
    (pre : List String) (t : String) (post : List String) (e : String)
    (hstrict : p.strict = true)
    (hpre : ∀ s ∈ pre, ∃ df, fetch s = Except.ok df)
    (hfail : fetch t = Except.error e) :
    (portfolioRun p fetch (pre ++ t :: post)).result =
        Except.error (RunError.strictAbort t e) ∧
      (portfolioRun p fetch (pre ++ t :: post)).failures = [(t, e)] ∧
      (portfolioRun p fetch (pre ++ t :: post)).attempted = pre ++ [t] := by
  have h := runTickers_strict_abort p fetch hstrict pre t post e hpre hfail
  simp [portfolioRun, h.1, h.2.1, h.2.2]

/-- Witness for C1: tickers `["AAPL", "BAD", "MSFT"]` in strict mode, where
    `"BAD"` fails: the request aborts with the failure recorded, `"MSFT"` is
    never fetched, and no table is produced. -/
theorem strict_mode_abort_witness :
    (portfolioRun ⟨true, true, true, false, true, true⟩
          (fun s => if s = "BAD" then Except.error "boom" else Except.ok [])
          (["AAPL"] ++ "BAD" :: ["MSFT"])).result =
        Except.error (RunError.strictAbort "BAD" "boom") ∧
      (portfolioRun ⟨true, true, true, false, true, true⟩
          (fun s => if s = "BAD" then Except.error "boom" else Except.ok [])
          (["AAPL"] ++ "BAD" :: ["MSFT"])).failures = [("BAD", "boom")] ∧
      (portfolioRun ⟨true, true, true, false, true, true⟩
          (fun s => if s = "BAD" then Except.error "boom" else Except.ok [])
          (["AAPL"] ++ "BAD" :: ["MSFT"])).attempted = ["AAPL"] ++ ["BAD"] := by
  exact strict_mode_abort ⟨true, true, true, false, true, true⟩
    (fun s => if s = "BAD" then Except.error "boom" else Except.ok [])
    ["AAPL"] "BAD" ["MSFT"] "boom" rfl
    (by intro s hs; simp at hs; subst hs; exact ⟨[], rfl⟩) rfl

/-! ### C2: lenient mode processes everything and keeps partial successes -/

/-- The (ticker, error message) failure records of the tickers whose fetch
    fails, in request order. -/
def failuresOf (fetch : String → Except String (List Row))
    (tickers : List String) : List (String × String) :=
  tickers.filterMap fun t =>
    match fetch t with
    | Except.error e => some (t, e)
    | Except.ok _ => none

/-- The transformed frames of the tickers whose fetch succeeds, in request
    order. -/
def successFrames (p : Params) (fetch : String → Except String (List Row))
    (tickers : List String) : List (List Row) :=
  tickers.filterMap fun t =>
    match fetch t with
    | Except.ok df =>
      some (transform p.use_adjclose_as_close p.include_returns df)
    | Except.error _ => none

theorem runTickers_lenient (p : Params)
    (fetch : String → Except String (List Row)) (hl : p.strict = false) :
    ∀ tickers : List String,
      (runTickers p fetch tickers).abort = none ∧
        (runTickers p fetch tickers).attempted = tickers ∧
        (runTickers p fetch tickers).failed = failuresOf fetch tickers ∧
        (runTickers p fetch tickers).frames = successFrames p fetch tickers
  | [] => by simp [runTickers, failuresOf, successFrames]
  | t :: rest => by
    have ih := runTickers_lenient p fetch hl rest
    cases hf : fetch t with
    | ok df =>
      simp [runTickers, hf, hl, ih.1, ih.2.1, ih.2.2.1, ih.2.2.2,
        failuresOf, successFrames, List.filterMap_cons]
    | error e =>
      simp [runTickers, hf, hl, ih.1, ih.2.1, ih.2.2.1, ih.2.2.2,
        failuresOf, successFrames, List.filterMap_cons]

/-- C2: with strict mode disabled the pipeline attempts every ticker in
    request order and accumulates one FetchFailure per failing ticker; if at
    least one ticker succeeds, the run returns a merged table whose rows are
    exactly the (sorted) concatenation of the successful tickers' transformed
    frames, together with that failure list; if every ticker fails, the run
    fails with AllTickersFailed carrying the accumulated failure list and
    returns no table. -/
theorem lenient_mode_run (p : Params) (fetch : String → Except String (List Row))
    (tickers : List String) (hl : p.strict = false) :
    (portfolioRun p fetch tickers).attempted = tickers ∧
      (portfolioRun p fetch tickers).failures = failuresOf fetch tickers ∧
      ((∃ t ∈ tickers, ∃ df, fetch t = Except.ok df) →
        (portfolioRun p fetch tickers).result =
          Except.ok
            (MergedTable.mk
              (finalCols p.include_adjclose_column p.include_returns p.hasBatch
                p.hasPortfolio (frameCols p.include_returns))
              (finalSort (successFrames p fetch tickers).flatten))) ∧
      ((∀ t ∈ tickers, ∃ e, fetch t = Except.error e) →
        (portfolioRun p fetch tickers).result =
          Except.error (RunError.allTickersFailed (failuresOf fetch tickers))) := by
  have h := runTickers_lenient p fetch hl tickers
  refine ⟨?_, ?_, ?_, ?_⟩
  · simp only [portfolioRun, h.1, h.2.1]
    split <;> rfl
  · simp only [portfolioRun, h.1, h.2.2.1]
    split <;> rfl
  · intro hsome
    obtain ⟨t, ht, df, hdf⟩ := hsome
    have hne : successFrames p fetch tickers ≠ [] := by
      intro hnil
      have := (List.filterMap_eq_nil_iff.mp hnil) t ht
      simp [hdf] at this
    simp [portfolioRun, h.1, h.2.2.1, h.2.2.2, hne]
  · intro hall
    have hnil : successFrames p fetch tickers = [] := by
      apply List.filterMap_eq_nil_iff.mpr
      intro t ht
      obtain ⟨e, he⟩ := hall t ht
      simp [he]
    simp [portfolioRun, h.1, h.2.2.1, h.2.2.2, hnil]

/-- Witness for C2: tickers `["AAPL", "BAD"]` in lenient mode where only
    `"AAPL"` succeeds: both tickers are attempted, the failure list is
    `[("BAD", "boom")]`, and the run returns the table built from the
    successful frames only. -/
theorem lenient_mode_run_witness :
    (portfolioRun ⟨false, true, true, false, true, true⟩
          (fun s => if s = "BAD" then Except.error "boom" else Except.ok [])
          ["AAPL", "BAD"]).attempted = ["AAPL", "BAD"] ∧
      (portfolioRun ⟨false, true, true, false, true, true⟩
          (fun s => if s = "BAD" then Except.error "boom" else Except.ok [])
          ["AAPL", "BAD"]).failures = [("BAD", "boom")] ∧
      (portfolioRun ⟨false, true, true, false, true, true⟩
          (fun s => if s = "BAD" then Except.error "boom" else Except.ok [])
          ["AAPL", "BAD"]).result =
        Except.ok
          (MergedTable.mk (finalCols true false true true (frameCols false))
            (finalSort (successFrames ⟨false, true, true, false, true, true⟩
              (fun s => if s = "BAD" then Except.error "boom" else Except.ok [])
              ["AAPL", "BAD"]).flatten)) := by
  have h := lenient_mode_run ⟨false, true, true, false, true, true⟩
    (fun s => if s = "BAD" then Except.error "boom" else Except.ok [])
    ["AAPL", "BAD"] rfl
  refine ⟨h.1, ?_, h.2.2.1 ⟨"AAPL", by simp, [], rfl⟩⟩
  rw [h.2.1]
  rfl

/-! ### C4: final column list -/

/-- C4: on every request shape (all four relevant flags) and every merged
    column set not already containing the inserted id columns, the column
    list the code builds — in both the portfolio-id and the no-portfolio-id
    branch — equals the spec's fixed logical order `batch_id?, portfolio_id?,
    datetime, ticker, open, high, low, close, adjclose?, volume, openinterest,
    ret?` restricted to the columns present in the merged data, with
    requested-but-absent columns silently omitted rather than erroring. -/
theorem final_columns_spec (includeAdj includeRet hasBatch hasPortfolio : Bool)
    (cols0 : List String)
    (h₁ : "batch_id" ∉ cols0) (h₂ : "portfolio_id" ∉ cols0) :
    finalCols includeAdj includeRet hasBatch hasPortfolio cols0 =
      specFinalCols includeAdj includeRet hasBatch hasPortfolio cols0 := by
  cases includeAdj <;> cases includeRet <;> cases hasBatch <;> cases hasPortfolio <;>
    by_cases ha : "adjclose" ∈ cols0 <;> by_cases hr : "ret" ∈ cols0 <;>
      simp [finalCols, specFinalCols, buildOutCols, base_cols, listInsert,
        mergedColumns, List.filter_cons, ha, hr, h₁, h₂]

/-- Witness for C4: with every flag on and the full adapter column set, the
    code's column list matches the spec order, concretely. -/
theorem final_columns_spec_witness :
    finalCols true true true true (frameCols true) =
        specFinalCols true true true true (frameCols true) ∧
      finalCols true true true true (frameCols true) =
        ["batch_id", "portfolio_id", "datetime", "ticker", "open", "high", "low",
          "close", "adjclose", "volume", "openinterest", "ret"] :=
  ⟨final_columns_spec true true true true (frameCols true) (by decide) (by decide),
    by rfl⟩

/-! ### C6: per-ticker returns -/

theorem dateLE_trans (a b c : Row) (h₁ : dateLE a b = true)
    (h₂ : dateLE b c = true) : dateLE a c = true :=
  lexLE_trans _ _ _ h₁ h₂

theorem dateLE_total (a b : Row) : (dateLE a b || dateLE b a) = true :=
  lexLE_total _ _

theorem pctChangeFrom_map_datetime : ∀ (prev : Option ℚ) (l : List Row),
    (pctChangeFrom prev l).map (fun r => r.datetime) = l.map (fun r => r.datetime)
  | _, [] => rfl
  | prev, r :: rs => by
    simp [pctChangeFrom, pctChangeFrom_map_datetime (r.close.or prev) rs]

theorem pctChangeFrom_first_ret (l rest : List Row) (a : Row)
    (h : pctChangeFrom none l = a :: rest) : a.ret = none := by
  cases l with
  | nil => exact absurd h (by simp [pctChangeFrom])
  | cons r rs =>
    simp only [pctChangeFrom] at h
    injection h with h₁ _
    rw [← h₁]

theorem pctChangeFrom_consec : ∀ (prev : Option ℚ) (l pre post : List Row) (a b : Row),
    pctChangeFrom prev l = pre ++ a :: b :: post →
    ∀ p c : ℚ, a.close = some p → b.close = some c → b.ret = some (c / p - 1)
  | prev, l, [], post, a, b, h, p, c, hp, hc => by
    cases l with
    | nil => exact absurd h (by simp [pctChangeFrom])
    | cons r rs =>
      simp only [pctChangeFrom, List.nil_append] at h
      injection h with h₁ h₂
      cases rs with
      | nil => exact absurd h₂ (by simp [pctChangeFrom])
      | cons s ss =>
        simp only [pctChangeFrom] at h₂
        injection h₂ with h₃ _
        have hrc : r.close = some p := by
          have : a.close = r.close := by rw [← h₁]
          rw [← this, hp]
        have hsc : s.close = some c := by
          have : b.close = s.close := by rw [← h₃]
          rw [← this, hc]
        rw [← h₃]
        simp [hrc, hsc, Option.or]
  | prev, l, x :: pre, post, a, b, h, p, c, hp, hc => by
    cases l with
    | nil => exact absurd h (by simp [pctChangeFrom])
    | cons r rs =>
      simp only [pctChangeFrom, List.cons_append] at h
      injection h with _ h₂
      exact pctChangeFrom_consec (r.close.or prev) rs pre post a b h₂ p c hp hc

/-- C6: for every fetched frame, the returns step first sorts the rows by
    date ascending, gives the first row a null return, and gives every later
    row whose close (after any adjusted-close substitution) and predecessor
    close are present the return `close[i] / close[i-1] - 1`; the closes in
    question are the post-substitution ones, since substitution runs before
    the returns step. -/
theorem returns_computation (useAdj : Bool) (df : List Row) :
    ((transform useAdj true df).Pairwise fun a b => dateLE a b = true) ∧
      (∀ a rest, transform useAdj true df = a :: rest → a.ret = none) ∧
      (∀ pre post a b (p c : ℚ),
        transform useAdj true df = pre ++ a :: b :: post →
        a.close = some p → b.close = some c → b.ret = some (c / p - 1)) := by
  have key : ∀ l : List Row,
      ((pctChangeFrom none (l.mergeSort dateLE)).Pairwise fun a b => dateLE a b = true) ∧
        (∀ a rest, pctChangeFrom none (l.mergeSort dateLE) = a :: rest → a.ret = none) ∧
        (∀ pre post a b (p c : ℚ),
          pctChangeFrom none (l.mergeSort dateLE) = pre ++ a :: b :: post →
          a.close = some p → b.close = some c → b.ret = some (c / p - 1)) := by
    intro l
    refine ⟨?_, fun a rest h => pctChangeFrom_first_ret _ rest a h,
      fun pre post a b p c h => pctChangeFrom_consec none _ pre post a b h p c⟩
    have hsorted : (l.mergeSort dateLE).Pairwise fun a b => dateLE a b = true :=
      List.sorted_mergeSort dateLE_trans dateLE_total l
    have hmap := pctChangeFrom_map_datetime none (l.mergeSort dateLE)
    have h₁ : ((l.mergeSort dateLE).map fun r => r.datetime).Pairwise
        (fun x y : String => lexLE x.data y.data = true) :=
      List.pairwise_map.mpr hsorted
    have h₂ := hmap ▸ h₁
    exact List.pairwise_map.mp h₂
  exact key (if useAdj then substituteAdjClose df else df)

/-- Ticker frame for the C6 witness: closes 100, 110, 99 in date order, with
    equal adjusted closes so the substitution step changes nothing. -/
def df6 : List Row :=
  [mkRow "2024-01-01" "X" none none none (some 100) (some 100) 0 0 none,
    mkRow "2024-01-02" "X" none none none (some 110) (some 110) 0 0 none,
    mkRow "2024-01-03" "X" none none none (some 99) (some 99) 0 0 none]

/-- The rows the returns step produces for `df6`. -/
def out6 : List Row :=
  [mkRow "2024-01-01" "X" none none none (some 100) (some 100) 0 0 none,
    mkRow "2024-01-02" "X" none none none (some 110) (some 110) 0 0
      (some ((110 : ℚ) / 100 - 1)),
    mkRow "2024-01-03" "X" none none none (some 99) (some 99) 0 0
      (some ((99 : ℚ) / 110 - 1))]

/-- Witness for C6: a ticker frame with closes `[100, 110, 99]` in date order
    yields the returns `[null, 1/10, -1/10]`. -/
theorem returns_computation_witness :
    (transform true true df6).map (fun r => r.ret) =
      [none, some (1/10), some (-(1/10))] := by
  have hms : (substituteAdjClose df6).mergeSort dateLE = substituteAdjClose df6 :=
    List.mergeSort_of_sorted (by decide)
  have hdecomp : transform true true df6 = out6 := by
    have hstep : transform true true df6 =
        pctChangeFrom none ((substituteAdjClose df6).mergeSort dateLE) := rfl
    rw [hstep, hms]
    rfl
  have h1 := (returns_computation true df6).2.1 _ _ hdecomp
  have h2 := (returns_computation true df6).2.2 [] _ _ _ 100 110 hdecomp rfl rfl
  have h3 := (returns_computation true df6).2.2
    [mkRow "2024-01-01" "X" none none none (some 100) (some 100) 0 0 none] [] _ _
    110 99 hdecomp rfl rfl
  rw [hdecomp]
  simp only [out6, List.map, h1, h2, h3]
  norm_num

end Jarvis
